import Mathlib

/-!
Verification development for the source-separation pipeline of
`xumx/test.py` (functions `istft`, `separate`, `test`).

Shallow embedding conventions:
* waveforms are functions `ℤ → ℝ` (sample index to amplitude), one per channel;
* spectrograms are functions of `(frame, bin)` (and channel / source where
  applicable) into `ℂ` or `ℝ`;
* the finite frame count of an STFT is carried as an explicit parameter `T`;
* machine floats are idealised as real numbers.

The analysis transform (`model.py`, imported via `from .model import *` but not
present under `src/`), the Wiener refinement (`norbert.wiener`), the residual
model (`norbert.residual_model`) and the overlap-add synthesis internals of
`scipy.signal.istft` are modelled from the spec; each such definition carries a
doc comment starting with `Modelled from the spec:`.
-/

noncomputable section

/-- Primitive `N`-th root of unity used by the discrete Fourier transform. -/
def dftRoot (N : ℕ) : ℂ := Complex.exp (2 * Real.pi * Complex.I / N)

/-- Forward DFT of an `N`-point complex sequence: bin `k` is
`∑ m, f m · ω⁻¹ ^ (k·m)` with `ω` the primitive `N`-th root of unity. -/
def dftc (N : ℕ) (f : ℕ → ℂ) (k : ℕ) : ℂ :=
  ∑ m ∈ Finset.range N, f m * (dftRoot N)⁻¹ ^ (k * m)

/-- Inverse DFT of an `N`-point complex spectrum. -/
def idftc (N : ℕ) (F : ℕ → ℂ) (m : ℕ) : ℂ :=
  (N : ℂ)⁻¹ * ∑ k ∈ Finset.range N, F k * dftRoot N ^ (k * m)

lemma dftRoot_ne_zero (N : ℕ) : dftRoot N ≠ 0 := Complex.exp_ne_zero _

lemma dftRoot_primitive {N : ℕ} (hN : N ≠ 0) : IsPrimitiveRoot (dftRoot N) N :=
  Complex.isPrimitiveRoot_exp N hN

lemma dftRoot_pow_self {N : ℕ} (hN : N ≠ 0) : dftRoot N ^ N = 1 :=
  (dftRoot_primitive hN).pow_eq_one

lemma geom_sum_root {N : ℕ} {z : ℂ} (hzN : z ^ N = 1) (hz : z ≠ 1) :
    ∑ k ∈ Finset.range N, z ^ k = 0 := by
  rw [geom_sum_eq hz, hzN, sub_self, zero_div]

lemma dft_ortho {N : ℕ} (hN : N ≠ 0) {m m' : ℕ} (hm : m < N) (hm' : m' < N) :
    ∑ k ∈ Finset.range N, (dftRoot N)⁻¹ ^ (k * m') * dftRoot N ^ (k * m) =
      if m' = m then (N : ℂ) else 0 := by
  have hterm : ∀ k, (dftRoot N)⁻¹ ^ (k * m') * dftRoot N ^ (k * m)
      = ((dftRoot N)⁻¹ ^ m' * dftRoot N ^ m) ^ k := by
    intro k
    rw [mul_pow, ← pow_mul, ← pow_mul, Nat.mul_comm m' k, Nat.mul_comm m k]
  rw [Finset.sum_congr rfl fun k _ => hterm k]
  by_cases he : m' = m
  · subst he
    have h1 : (dftRoot N)⁻¹ ^ m' * dftRoot N ^ m' = 1 := by
      rw [← mul_pow, inv_mul_cancel₀ (dftRoot_ne_zero N), one_pow]
    rw [if_pos rfl, h1]
    simp
  · have hz1 : (dftRoot N)⁻¹ ^ m' * dftRoot N ^ m ≠ 1 := by
      intro hcon
      rw [inv_pow, inv_mul_eq_one₀ (pow_ne_zero _ (dftRoot_ne_zero N))] at hcon
      exact he ((dftRoot_primitive hN).pow_inj hm' hm hcon)
    have hzN : ((dftRoot N)⁻¹ ^ m' * dftRoot N ^ m) ^ N = 1 := by
      rw [mul_pow, ← pow_mul, ← pow_mul, Nat.mul_comm m' N, Nat.mul_comm m N,
        pow_mul, pow_mul, inv_pow, dftRoot_pow_self hN, inv_one, one_pow, one_pow, one_mul]
    rw [geom_sum_root hzN hz1, if_neg he]

/-- Inversion: the inverse DFT recovers every in-range sample of the input. -/
lemma idftc_dftc {N : ℕ} (hN : N ≠ 0) (f : ℕ → ℂ) {m : ℕ} (hm : m < N) :
    idftc N (dftc N f) m = f m := by
  unfold idftc dftc
  have e1 : ∑ k ∈ Finset.range N,
      (∑ m' ∈ Finset.range N, f m' * (dftRoot N)⁻¹ ^ (k * m')) * dftRoot N ^ (k * m)
      = ∑ m' ∈ Finset.range N, f m' *
          ∑ k ∈ Finset.range N, (dftRoot N)⁻¹ ^ (k * m') * dftRoot N ^ (k * m) :=
    calc ∑ k ∈ Finset.range N,
        (∑ m' ∈ Finset.range N, f m' * (dftRoot N)⁻¹ ^ (k * m')) * dftRoot N ^ (k * m)
        = ∑ k ∈ Finset.range N, ∑ m' ∈ Finset.range N,
            f m' * ((dftRoot N)⁻¹ ^ (k * m') * dftRoot N ^ (k * m)) := by
          refine Finset.sum_congr rfl fun k _ => ?_
          rw [Finset.sum_mul]
          refine Finset.sum_congr rfl fun m' _ => ?_
          ring
      _ = ∑ m' ∈ Finset.range N, ∑ k ∈ Finset.range N,
            f m' * ((dftRoot N)⁻¹ ^ (k * m') * dftRoot N ^ (k * m)) := Finset.sum_comm
      _ = ∑ m' ∈ Finset.range N, f m' *
            ∑ k ∈ Finset.range N, (dftRoot N)⁻¹ ^ (k * m') * dftRoot N ^ (k * m) := by
          refine Finset.sum_congr rfl fun m' _ => ?_
          rw [Finset.mul_sum]
  rw [e1]
  have e2 : ∑ m' ∈ Finset.range N, f m' *
      ∑ k ∈ Finset.range N, (dftRoot N)⁻¹ ^ (k * m') * dftRoot N ^ (k * m)
      = ∑ m' ∈ Finset.range N, if m' = m then f m' * N else 0 := by
    refine Finset.sum_congr rfl fun m' hm' => ?_
    rw [dft_ortho hN hm (Finset.mem_range.mp hm'), mul_ite, mul_zero]
  rw [e2, Finset.sum_ite_eq' (Finset.range N) m (fun m' => f m' * N),
    if_pos (Finset.mem_range.mpr hm), mul_comm (f m) ((N : ℂ)), ← mul_assoc,
    inv_mul_cancel₀ (Nat.cast_ne_zero.mpr hN), one_mul]

/-- Position in the original signal of sample `m` of frame `t`: centered
framing shifts every frame left by `n_fft / 2` (symmetric zero-padding of the
boundary, as both the spec's Spectral Transform and `scipy`'s `boundary=True`
convention prescribe). -/
def posIdx (nfft nhop t m : ℕ) : ℤ :=
  ((t * nhop + m : ℕ) : ℤ) - ((nfft / 2 : ℕ) : ℤ)

/-- Periodic Hann window of length `N`, the fixed analysis window of the
pipeline (`scipy`'s default window for `istft`, and the spec's §4.1 window). -/
def hannWin (N m : ℕ) : ℝ := (1 - Real.cos (2 * Real.pi * m / N)) / 2

/-- Modelled from the spec: `analyze` (§4.1), the windowed centered STFT.  The
analysis network module (`model.py`, imported by `test.py` but absent from
`src/`) computes this transform; frame `t`, bin `k` is the DFT of the windowed
frame starting at signal position `t·n_hop − n_fft/2`. -/
def analyzeSTFT (w : ℕ → ℝ) (nfft nhop : ℕ) (x : ℤ → ℝ) (t k : ℕ) : ℂ :=
  dftc nfft (fun m => ((w m * x (posIdx nfft nhop t m) : ℝ) : ℂ)) k

/-- Sum of squared shifted windows at output sample `n` — the overlap-add
normalisation denominator of the spec's `synthesize` (§4.1). -/
def olaDen (w : ℕ → ℝ) (nfft nhop T : ℕ) (n : ℤ) : ℝ :=
  ∑ t ∈ Finset.range T, ∑ m ∈ Finset.range nfft,
    if posIdx nfft nhop t m = n then w m ^ 2 else 0

/-- Modelled from the spec: `synthesize` (§4.1), the overlap-add inverse STFT
performed by `scipy.signal.istft` (external library): each frame is
inverse-transformed, windowed, scattered to its signal positions, and the
total is normalised by the sum of squared shifted windows. -/
def synthesizeOLA (w : ℕ → ℝ) (nfft nhop T : ℕ) (Y : ℕ → ℕ → ℂ) (n : ℤ) : ℝ :=
  (∑ t ∈ Finset.range T, ∑ m ∈ Finset.range nfft,
      if posIdx nfft nhop t m = n then w m * (idftc nfft (Y t) m).re else 0) /
    olaDen w nfft nhop T n

/-- Embedding of `istft` (`test.py` lines 28–36): the spectrogram is rescaled
by `n_fft // 2` and handed to the overlap-add synthesis.  `rate` is accepted
and ignored for samples (it only scales `scipy`'s time axis); `T` is the frame
count of the spectrogram, implicit in the `numpy` array argument. -/
def istftFun (T : ℕ) (X : ℕ → ℕ → ℂ) (n : ℤ) (_rate : ℕ := 44100)
    (nfft : ℕ := 4096) (nhop : ℕ := 1024) : ℝ :=
  synthesizeOLA (hannWin nfft) nfft nhop T (fun t k => X t k / ((nfft / 2 : ℕ) : ℂ)) n

/-- Modelled from the spec: the analysis transform applied by the network
module carries a gain of `n_fft // 2` relative to the synthesis library's
convention, which is exactly the rescaling `istft` removes (§4.1 requires the
composite to be the identity). -/
def modelSTFT (nfft nhop : ℕ) (x : ℤ → ℝ) (t k : ℕ) : ℂ :=
  ((nfft / 2 : ℕ) : ℂ) * analyzeSTFT (hannWin nfft) nfft nhop x t k

/-- Overlap-add of the unmodified analysis of `x` returns `x` wherever the
shifted windows have positive total energy. -/
lemma synthesizeOLA_analyzeSTFT (w : ℕ → ℝ) {nfft : ℕ} (hN : nfft ≠ 0)
    (nhop T : ℕ) (x : ℤ → ℝ) (n : ℤ) (hden : 0 < olaDen w nfft nhop T n) :
    synthesizeOLA w nfft nhop T (analyzeSTFT w nfft nhop x) n = x n := by
  unfold synthesizeOLA
  have hnum : (∑ t ∈ Finset.range T, ∑ m ∈ Finset.range nfft,
      if posIdx nfft nhop t m = n
      then w m * (idftc nfft (analyzeSTFT w nfft nhop x t) m).re else 0)
      = olaDen w nfft nhop T n * x n := by
    unfold olaDen
    rw [Finset.sum_mul]
    refine Finset.sum_congr rfl fun t _ => ?_
    rw [Finset.sum_mul]
    refine Finset.sum_congr rfl fun m hm => ?_
    rw [ite_mul, zero_mul]
    by_cases hc : posIdx nfft nhop t m = n
    · rw [if_pos hc, if_pos hc]
      unfold analyzeSTFT
      rw [idftc_dftc hN _ (Finset.mem_range.mp hm), Complex.ofReal_re, hc]
      ring
    · rw [if_neg hc, if_neg hc]
  rw [hnum, mul_comm, mul_div_assoc, div_self (ne_of_gt hden), mul_one]

/-- The model path's known targets, exactly as hard-coded in `separate`
(`test.py`): `sources = ['bass', 'drums', 'vocals', 'other']`. -/
def sources : List String := ["bass", "drums", "vocals", "other"]

/-- Modelled from the spec: the model's STFT window length
(`unmix_target.n_fft`, an attribute of `model.py`'s `OpenUnmix_CrossNet`,
absent from `src/`); the spec's configuration default is 4096. -/
def nfftModel : ℕ := 4096

/-- Modelled from the spec: the model's STFT hop size (`unmix_target.n_hop`
from `model.py`, absent from `src/`); the spec's configuration default is
1024. -/
def nhopModel : ℕ := 1024

/-- Modelled from the spec: the covariance regulariser `eps`, an
implementation-chosen small constant internal to `norbert` (§6 calls it
implementation-chosen; §4.4 suggests a magnitude like `1e-10`). -/
def norbertEps : ℝ := 1e-10

/-- Mixture complex spectrogram `X`: per channel `c`, the model STFT of that
channel of the input audio (layout `(frame, bin, channel)`, the layout
`separate` produces by `X[0].transpose(2, 1, 0)`). -/
def Xmix (audio : ℤ → ℕ → ℝ) (t b c : ℕ) : ℂ :=
  modelSTFT nfftModel nhopModel (fun n => audio n c) t b

/-- Modelled from the spec: the `mix_spec` tensor returned by the network is
the magnitude spectrogram of the mixture itself (§2 dataflow, §6 network
contract), layout `(frame, channel, bin)` as consumed at line 85. -/
def mixSpec (audio : ℤ → ℕ → ℝ) (f c b : ℕ) : ℝ := Complex.abs (Xmix audio f b c)

/-- Embedding of lines 85–88 of `test.py` for source `j`:
`Vj = msk[..., j*2:j*2+2, :] * mix_spec`, then `Vj = Vj**alpha` exactly when
`softmask` is set.  `msk` has the 8 interleaved source-channel planes, so the
slice for source `j`, channel `c` is plane `2*j + c`. -/
def Vsource (softmask : Bool) (alpha : ℝ) (msk mixs : ℕ → ℕ → ℕ → ℝ)
    (j f c b : ℕ) : ℝ :=
  let vj := msk f (2 * j + c) b * mixs f c b
  if softmask then vj ^ alpha else vj

/-- Embedding of lines 89–91: the stacked estimates after
`np.transpose(np.array(V), (1, 3, 2, 0))`, layout `(frame, bin, channel,
source)`. -/
def Vtensor (softmask : Bool) (alpha : ℝ) (msk mixs : ℕ → ℕ → ℕ → ℝ)
    (f b c j : ℕ) : ℝ :=
  Vsource softmask alpha msk mixs j f c b

/-- Embedding of lines 100–103: the final name list.  The residual name is
appended exactly under `residual_model or len(sources) == 1`, and is
`"residual"` when more than one source is known, else `"accompaniment"`. -/
def sourceNames (residual_model : Bool) (srcs : List String) : List String :=
  if residual_model = true ∨ srcs.length = 1 then
    srcs ++ (if 1 < srcs.length then ["residual"] else ["accompaniment"])
  else srcs

/-- Modelled from the spec: `norbert.residual_model` (§4.3) — appends one
extra source slice at index `nsrc` holding
`max 0 (mixture_power − ∑ sources V)`, with the mixture power derived from
`|X| ^ (2/alpha)`; existing slices are passed through unchanged. -/
def residualModel (nsrc : ℕ) (alpha : ℝ) (V : ℕ → ℕ → ℕ → ℕ → ℝ)
    (X : ℕ → ℕ → ℕ → ℂ) (f b c j : ℕ) : ℝ :=
  if j < nsrc then V f b c j
  else max 0 ((Complex.abs (X f b c)) ^ ((2 : ℝ) / alpha) -
    ∑ j' ∈ Finset.range nsrc, V f b c j')

/-- The unit-modulus phase factor `exp(i·angle z)` of a complex number (equal
to `1` at `z = 0`, matching `numpy`'s `angle 0 = 0` convention). -/
def phaseUnit (z : ℂ) : ℂ := if z = 0 then 1 else z / Complex.abs z

/-- Modelled from the spec: the initial estimate of the refinement engine
(§4.4 entry state): with `use_softmask`, the mixture is weighted by the ratio
mask `V_j / (∑ V + eps)`; otherwise the magnitude estimate takes the
mixture's own phase. -/
def initialEstimate (softmask : Bool) (eps : ℝ) (V : ℕ → ℕ → ℕ → ℕ → ℝ)
    (X : ℕ → ℕ → ℕ → ℂ) (nsrc : ℕ) (t b c j : ℕ) : ℂ :=
  if softmask then
    X t b c * ((V t b c j / ((∑ j' ∈ Finset.range nsrc, V t b c j') + eps) : ℝ) : ℂ)
  else ((V t b c j : ℝ) : ℂ) * phaseUnit (X t b c)

/-- Modelled from the spec: channel-averaged power tensor fed to the EM loop
(§4.4 step 5's "averaged appropriately"). -/
def chAvg (c : ℕ) (V : ℕ → ℕ → ℕ → ℕ → ℝ) (t b j : ℕ) : ℝ :=
  (∑ i ∈ Finset.range c, V t b i j) / c

/-- Modelled from the spec: spatial covariance estimation (§4.4 step 1) — the
time-averaged outer product of the current complex estimate, weighted by `v`,
normalised by the total weight. -/
def covR (T c : ℕ) (v : ℕ → ℝ) (y : ℕ → ℕ → ℂ) : Matrix (Fin c) (Fin c) ℂ :=
  (((∑ t ∈ Finset.range T, v t) : ℝ) : ℂ)⁻¹ •
    ∑ t ∈ Finset.range T, ((v t : ℝ) : ℂ) •
      Matrix.of (fun i k : Fin c => y t i.1 * (starRingEnd ℂ) (y t k.1))

/-- Modelled from the spec: spatial covariance of source `j` at bin `b`
(§4.4 step 1), from the current state `(v, y)` (part of the `norbert`
refinement engine, an external dependency). -/
def emR (T c : ℕ) (v : ℕ → ℕ → ℕ → ℝ) (y : ℕ → ℕ → ℕ → ℕ → ℂ)
    (j b : ℕ) : Matrix (Fin c) (Fin c) ℂ :=
  covR T c (fun t => v t b j) (fun t i => y t b i j)

/-- Modelled from the spec: mixture covariance with diagonal loading (§4.4
step 2): `Cxx[t,b] = ∑_j v_j[t,b] · R_j[b] + eps · I`. -/
def emCxx (T c nsrc : ℕ) (eps : ℝ) (v : ℕ → ℕ → ℕ → ℝ)
    (y : ℕ → ℕ → ℕ → ℕ → ℂ) (t b : ℕ) : Matrix (Fin c) (Fin c) ℂ :=
  (∑ j ∈ Finset.range nsrc, ((v t b j : ℝ) : ℂ) • emR T c v y j b) +
    ((eps : ℝ) : ℂ) • (1 : Matrix (Fin c) (Fin c) ℂ)

/-- Modelled from the spec: Wiener gain applied to the mixture (§4.4 steps
3–4): `Y_j[t,b] = (v_j[t,b] · R_j[b] · Cxx[t,b]⁻¹) · X[t,b]`, per channel
`i` (zero for channel indices beyond the channel count). -/
def emYnew (T c nsrc : ℕ) (eps : ℝ) (X : ℕ → ℕ → ℕ → ℂ)
    (v : ℕ → ℕ → ℕ → ℝ) (y : ℕ → ℕ → ℕ → ℕ → ℂ) (t b i j : ℕ) : ℂ :=
  if h : i < c then
    ((((v t b j : ℝ) : ℂ) •
        (emR T c v y j b * (emCxx T c nsrc eps v y t b)⁻¹)).mulVec
      (fun k : Fin c => X t b k.1)) ⟨i, h⟩
  else 0

/-- Modelled from the spec: one EM iteration of the multichannel Wiener
refinement engine (§4.4 steps 1–5): covariance estimation, mixture covariance
assembly with diagonal loading, Wiener gain, source update, and power
re-estimation (step 5's channel-averaged power of the new estimate).  State is
`(v, y)` with `v (t, b, j)` the scalar source power and `y (t, b, ch, j)` the
complex estimates. -/
def emStep (T c nsrc : ℕ) (eps : ℝ) (X : ℕ → ℕ → ℕ → ℂ)
    (st : (ℕ → ℕ → ℕ → ℝ) × (ℕ → ℕ → ℕ → ℕ → ℂ)) :
    (ℕ → ℕ → ℕ → ℝ) × (ℕ → ℕ → ℕ → ℕ → ℂ) :=
  (fun t b j => (∑ i ∈ Finset.range c,
      Complex.normSq (emYnew T c nsrc eps X st.1 st.2 t b i j)) / c,
    emYnew T c nsrc eps X st.1 st.2)

/-- Modelled from the spec: `norbert.wiener` (§4.4) — the initial soft/hard
mask estimate followed by `niter` additional EM refinement passes (`niter`
controls the extra passes; a non-positive count leaves the initial estimate). -/
def wiener (T c nsrc : ℕ) (eps : ℝ) (niter : ℤ) (softmask : Bool)
    (V : ℕ → ℕ → ℕ → ℕ → ℝ) (X : ℕ → ℕ → ℕ → ℂ) : ℕ → ℕ → ℕ → ℕ → ℂ :=
  ((emStep T c nsrc eps X)^[niter.toNat]
    (chAvg c V, initialEstimate softmask eps V X nsrc)).2

/-- The per-source estimate tensor handed to `norbert.wiener` (lines 100–105):
`V` as produced at line 91, extended by `norbert.residual_model(V, X, alpha if
softmask else 1)` exactly under `residual_model or len(sources) == 1`. -/
def separateVfinal (audio : ℤ → ℕ → ℝ) (msk : ℕ → ℕ → ℕ → ℝ)
    (softmask : Bool) (alpha : ℝ) (residual_model : Bool) :
    ℕ → ℕ → ℕ → ℕ → ℝ :=
  if residual_model = true ∨ sources.length = 1 then
    residualModel sources.length (if softmask then alpha else 1)
      (Vtensor softmask alpha msk (mixSpec audio)) (Xmix audio)
  else Vtensor softmask alpha msk (mixSpec audio)

/-- The refined complex source spectrograms `Y` of `separate` (line 105):
`norbert.wiener(V, X, niter, use_softmask=softmask)` on the stereo mixture. -/
def separateY (audio : ℤ → ℕ → ℝ) (msk : ℕ → ℕ → ℕ → ℝ) (T : ℕ) (niter : ℤ)
    (softmask : Bool) (alpha : ℝ) (residual_model : Bool) :
    ℕ → ℕ → ℕ → ℕ → ℂ :=
  wiener T 2 (sourceNames residual_model sources).length norbertEps niter softmask
    (separateVfinal audio msk softmask alpha residual_model) (Xmix audio)

/-- Embedding of lines 109–115 for one source: the waveform written for source
slice `j` of `Y` — `istft(Y[..., j].T, n_fft=unmix_target.n_fft,
n_hopsize=unmix_target.n_hop).T`, i.e. each channel `c` of the output is the
inverse STFT of that channel's plane of slice `j`. -/
def reconWave (T : ℕ) (Y : ℕ → ℕ → ℕ → ℕ → ℂ) (j : ℕ) : ℤ → ℕ → ℝ :=
  fun n c => istftFun T (fun t k => Y t k c j) n 44100 nfftModel nhopModel

/-- Embedding of `separate` (`test.py` lines 39–117).  The Python keyword
defaults are carried verbatim (`niter=1`, `softmask=False`, `alpha=1.0`,
`residual_model=False`).  The estimates dictionary is an insertion-ordered
association list built by `for j, name in enumerate(source_names)`. -/
def separate (audio : ℤ → ℕ → ℝ) (msk : ℕ → ℕ → ℕ → ℝ) (T : ℕ)
    (niter : ℤ := 1) (softmask : Bool := false) (alpha : ℝ := 1.0)
    (residual_model : Bool := false) : List (String × (ℤ → ℕ → ℝ)) :=
  (sourceNames residual_model sources).enum.map
    (fun p => (p.2, reconWave T (separateY audio msk T niter softmask alpha residual_model) p.1))

/-- A 2-D audio buffer as read by `sf.read(..., always_2d=True)`: shape
`(samples, channels)`.  The data function is canonical: it returns 0 outside
the stored extent whenever an operation materialises a new array. -/
structure Audio2D where
  rows : ℕ
  cols : ℕ
  data : ℕ → ℕ → ℝ

/-- Embedding of `test.py` lines 149–153: if more than two channels are
present, warn and keep `audio[:, :2]`.  Returns the warning flag and the
(possibly sliced) buffer. -/
def channelCheck (a : Audio2D) : Bool × Audio2D :=
  if 2 < a.cols then
    (true, { rows := a.rows, cols := 2
             , data := fun i j => if j < 2 then a.data i j else 0 })
  else (false, a)

/-- Embedding of lines 155–157: `resampy.resample(audio, rate, sample_rate,
axis=0)` when the file rate differs.  `resampy` is an external collaborator,
so the per-channel time-axis transform `R` and the resampled length `rlen`
are abstract parameters; the channel count is untouched. -/
def resampleStep (needR : Bool) (R : (ℕ → ℝ) → ℕ → ℝ) (rlen : ℕ → ℕ)
    (a : Audio2D) : Audio2D :=
  if needR then
    { rows := rlen a.rows, cols := a.cols
      , data := fun i j => R (fun t => a.data t j) i }
  else a

/-- Embedding of lines 159–162: `np.repeat(audio, 2, axis=1)` when the buffer
is mono — both output channels are copies of channel 0. -/
def monoDuplicate (a : Audio2D) : Audio2D :=
  if a.cols = 1 then
    { rows := a.rows, cols := 2
      , data := fun i j => if j < 2 then a.data i 0 else 0 }
  else a

/-- The full audio preprocessing of the `test` driver before `separate` is
invoked: channel check/slice, optional resampling, mono duplication (in that
order, lines 149–162). -/
def driverPreprocess (needR : Bool) (R : (ℕ → ℝ) → ℕ → ℝ) (rlen : ℕ → ℕ)
    (a : Audio2D) : Bool × Audio2D :=
  ((channelCheck a).1, monoDuplicate (resampleStep needR R rlen (channelCheck a).2))

/-- The keyword defaults of the Python signature of `separate`
(`niter=1`, `softmask=False`, `alpha=1.0`, `residual_model=False`). -/
structure SeparateArgs where
  niter : ℤ := 1
  softmask : Bool := false
  alpha : ℝ := 1.0
  residual_model : Bool := false

/-- The keyword defaults of the Python signature of `istft`
(`rate=44100`, `n_fft=4096`, `n_hopsize=1024`). -/
structure IstftArgs where
  rate : ℕ := 44100
  n_fft : ℕ := 4096
  n_hopsize : ℕ := 1024

/-- Modelled from the spec: the configuration-validity predicate of the
spec's error-handling design (§7 `ConfigurationError`, §4.1 `ShapeError`):
valid means `n_hop < n_fft`, `n_fft > 0`, `alpha > 0` and `niter ≥ 0`.
No such check exists anywhere in `test.py`. -/
def specConfigValid (nfft nhop : ℕ) (alpha : ℝ) (niter : ℤ) : Prop :=
  nhop < nfft ∧ 0 < nfft ∧ 0 < alpha ∧ 0 ≤ niter

/-! ### Zero propagation through the pipeline (silence handling) -/

lemma emYnew_zero (T c nsrc : ℕ) (eps : ℝ) (X : ℕ → ℕ → ℕ → ℂ)
    (y : ℕ → ℕ → ℕ → ℕ → ℂ) (t b i j : ℕ) :
    emYnew T c nsrc eps X (fun _ _ _ => 0) y t b i j = 0 := by
  unfold emYnew
  by_cases h : i < c
  · rw [dif_pos h]
    simp [Matrix.zero_mulVec]
  · rw [dif_neg h]

lemma emStep_zero (T c nsrc : ℕ) (eps : ℝ) (X : ℕ → ℕ → ℕ → ℂ) :
    emStep T c nsrc eps X (fun _ _ _ => 0, fun _ _ _ _ => 0)
      = (fun _ _ _ => 0, fun _ _ _ _ => 0) := by
  unfold emStep
  rw [Prod.mk.injEq]
  constructor
  · funext t b j
    simp [emYnew_zero]
  · funext t b i j
    exact emYnew_zero T c nsrc eps X _ t b i j

lemma wiener_zero (T c nsrc : ℕ) (eps : ℝ) (niter : ℤ) (sm : Bool)
    (X : ℕ → ℕ → ℕ → ℂ) :
    wiener T c nsrc eps niter sm (fun _ _ _ _ => 0) X = fun _ _ _ _ => 0 := by
  unfold wiener
  have h0 : (chAvg c (fun _ _ _ _ => 0),
      initialEstimate sm eps (fun _ _ _ _ => 0) X nsrc)
      = ((fun _ _ _ => 0 : ℕ → ℕ → ℕ → ℝ),
         (fun _ _ _ _ => 0 : ℕ → ℕ → ℕ → ℕ → ℂ)) := by
    rw [Prod.mk.injEq]
    constructor
    · funext t b j
      simp [chAvg]
    · funext t b c' j
      cases sm <;> simp [initialEstimate, phaseUnit]
  rw [h0, Function.iterate_fixed (emStep_zero T c nsrc eps X) niter.toNat]

lemma analyzeSTFT_zero (w : ℕ → ℝ) (nfft nhop t k : ℕ) :
    analyzeSTFT w nfft nhop (fun _ => 0) t k = 0 := by
  simp [analyzeSTFT, dftc]

lemma Xmix_zero (t b c : ℕ) : Xmix (fun _ _ => 0) t b c = 0 := by
  simp [Xmix, modelSTFT, analyzeSTFT_zero]

lemma mixSpec_zero (f c b : ℕ) : mixSpec (fun _ _ => 0) f c b = 0 := by
  simp [mixSpec, Xmix_zero]

lemma Vtensor_zero (sm : Bool) {alpha : ℝ} (ha : alpha ≠ 0)
    (msk : ℕ → ℕ → ℕ → ℝ) (f b c j : ℕ) :
    Vtensor sm alpha msk (mixSpec (fun _ _ => 0)) f b c j = 0 := by
  cases sm <;> simp [Vtensor, Vsource, mixSpec_zero, Real.zero_rpow ha]

lemma separateVfinal_zero (msk : ℕ → ℕ → ℕ → ℝ) (sm rm : Bool) {alpha : ℝ}
    (ha : 0 < alpha) (f b c j : ℕ) :
    separateVfinal (fun _ _ => 0) msk sm alpha rm f b c j = 0 := by
  have ha' : alpha ≠ 0 := ne_of_gt ha
  unfold separateVfinal
  split
  · unfold residualModel
    split
    · exact Vtensor_zero sm ha' msk f b c j
    · have hsum : ∑ j' ∈ Finset.range sources.length,
          Vtensor sm alpha msk (mixSpec (fun _ _ => 0)) f b c j' = 0 :=
        Finset.sum_eq_zero fun j' _ => Vtensor_zero sm ha' msk f b c j'
      have habs : Complex.abs (Xmix (fun _ _ => 0) f b c) = 0 := by
        rw [Xmix_zero]
        simp
      have hexp : ((2 : ℝ) / (if sm = true then alpha else 1)) ≠ 0 := by
        cases sm
        · norm_num
        · simpa using div_ne_zero (two_ne_zero) ha'
      rw [hsum, habs, sub_zero, Real.zero_rpow hexp, max_self]
  · exact Vtensor_zero sm ha' msk f b c j

lemma separateY_zero (msk : ℕ → ℕ → ℕ → ℝ) (T : ℕ) (niter : ℤ)
    (sm rm : Bool) {alpha : ℝ} (ha : 0 < alpha) :
    separateY (fun _ _ => 0) msk T niter sm alpha rm = fun _ _ _ _ => 0 := by
  unfold separateY
  have hV : separateVfinal (fun _ _ => 0) msk sm alpha rm
      = fun _ _ _ _ => 0 := by
    funext f b c j
    exact separateVfinal_zero msk sm rm ha f b c j
  rw [hV]
  exact wiener_zero _ _ _ _ _ _ _

lemma idftc_zero (N m : ℕ) : idftc N (fun _ => 0) m = 0 := by
  simp [idftc]

lemma reconWave_zero (T j : ℕ) (n : ℤ) (c : ℕ) :
    reconWave T (fun _ _ _ _ => 0) j n c = 0 := by
  simp [reconWave, istftFun, synthesizeOLA, idftc_zero]

/-! ### Structure of the estimates dictionary -/

lemma separate_names (audio : ℤ → ℕ → ℝ) (msk : ℕ → ℕ → ℕ → ℝ) (T : ℕ)
    (niter : ℤ) (sm : Bool) (alpha : ℝ) (rm : Bool) :
    (separate audio msk T niter sm alpha rm).map Prod.fst
      = sourceNames rm sources := by
  unfold separate
  rw [List.map_map]
  have hcomp : (Prod.fst ∘ fun p : ℕ × String =>
      (p.2, reconWave T (separateY audio msk T niter sm alpha rm) p.1))
      = Prod.snd := rfl
  rw [hcomp, List.enum_map_snd]

lemma separate_length (audio : ℤ → ℕ → ℝ) (msk : ℕ → ℕ → ℕ → ℝ) (T : ℕ)
    (niter : ℤ) (sm : Bool) (alpha : ℝ) (rm : Bool) :
    (separate audio msk T niter sm alpha rm).length
      = (sourceNames rm sources).length := by
  unfold separate
  rw [List.length_map, List.enum_length]

lemma separate_getElem (audio : ℤ → ℕ → ℝ) (msk : ℕ → ℕ → ℕ → ℝ) (T : ℕ)
    (niter : ℤ) (sm : Bool) (alpha : ℝ) (rm : Bool) (j : ℕ) :
    (separate audio msk T niter sm alpha rm)[j]?
      = ((sourceNames rm sources)[j]?).map
          (fun nm => (nm, reconWave T
            (separateY audio msk T niter sm alpha rm) j)) := by
  unfold separate
  rw [List.getElem?_map, List.getElem?_enum, Option.map_map]
  rfl

lemma resampleStep_cols (needR : Bool) (R : (ℕ → ℝ) → ℕ → ℝ) (rlen : ℕ → ℕ)
    (b : Audio2D) : (resampleStep needR R rlen b).cols = b.cols := by
  unfold resampleStep
  split <;> rfl

lemma monoDuplicate_cols_ne_one {b : Audio2D} (h : b.cols ≠ 1) :
    (monoDuplicate b).cols = b.cols := by
  unfold monoDuplicate
  rw [if_neg h]

/-! ### Claims -/

/-- Claim C1, counterexample: with `softmask` on, the estimator output is not
the mask raised to `alpha` — at mask value 2, mixture magnitude 3 and
`alpha = 1` the code yields `(2·3)^1 = 6`, not `2^1 = 2`. -/
theorem C1_counterexample :
    Vsource true 1 (fun _ _ _ => 2) (fun _ _ _ => 3) 0 0 0 0 ≠ (2 : ℝ) ^ (1 : ℝ) := by
  have h : Vsource true 1 (fun _ _ _ => 2) (fun _ _ _ => 3) 0 0 0 0 = 6 := by
    simp [Vsource]
    norm_num
  rw [h, Real.rpow_one]
  norm_num

/-- Claim C1 (amended): for every source, when `use_softmask` is true the
Spectrogram Estimator's output equals the product of the network's mask slice
with the mixture magnitude spectrogram, raised elementwise to the power
`alpha` — the exponent is applied to the masked mixture estimate
`msk · mix_spec`, not to the bare mask. -/
theorem C1_softmask_exponent_on_product (alpha : ℝ) (msk mixs : ℕ → ℕ → ℕ → ℝ)
    (f b c j : ℕ) :
    Vtensor true alpha msk mixs f b c j
      = (msk f (2 * j + c) b * mixs f c b) ^ alpha := by
  simp [Vtensor, Vsource]

/-- Claim C2: the residual source is appended exactly when residual modelling
is requested or exactly one known source exists; the appended name is
`"residual"` when more than one known source exists, else `"accompaniment"`;
exactly one extra name is added and the residual model keeps every existing
slice unchanged while defining exactly one new slice at index `nsrc`. -/
theorem C2_residual_append (rm : Bool) (srcs : List String) (nsrc : ℕ)
    (alpha : ℝ) (V : ℕ → ℕ → ℕ → ℕ → ℝ) (X : ℕ → ℕ → ℕ → ℂ)
    (f b c j : ℕ) (hj : j < nsrc) :
    (sourceNames rm srcs).length
        = (if rm = true ∨ srcs.length = 1 then srcs.length + 1 else srcs.length)
    ∧ sourceNames rm srcs
        = (if rm = true ∨ srcs.length = 1 then
            srcs ++ [if 1 < srcs.length then "residual" else "accompaniment"]
          else srcs)
    ∧ residualModel nsrc alpha V X f b c j = V f b c j
    ∧ residualModel nsrc alpha V X f b c nsrc
        = max 0 ((Complex.abs (X f b c)) ^ ((2 : ℝ) / alpha)
            - ∑ j' ∈ Finset.range nsrc, V f b c j') := by
  refine ⟨?_, ?_, ?_, ?_⟩
  · unfold sourceNames
    by_cases hC : rm = true ∨ srcs.length = 1
    · rw [if_pos hC, if_pos hC, List.length_append]
      by_cases h1 : 1 < srcs.length
      · rw [if_pos h1]
        rfl
      · rw [if_neg h1]
        rfl
    · rw [if_neg hC, if_neg hC]
  · unfold sourceNames
    by_cases hC : rm = true ∨ srcs.length = 1
    · rw [if_pos hC, if_pos hC]
      by_cases h1 : 1 < srcs.length
      · rw [if_pos h1, if_pos h1]
      · rw [if_neg h1, if_neg h1]
    · rw [if_neg hC, if_neg hC]
  · unfold residualModel
    rw [if_pos hj]
  · unfold residualModel
    rw [if_neg (lt_irrefl nsrc)]

/-- Claim C2, witness at the single-source case: one known source forces the
`"accompaniment"` name and the extra slice. -/
theorem C2_residual_append_witness :
    ((sourceNames true ["vocals"]).length
        = (if true = true ∨ (["vocals"] : List String).length = 1
          then (["vocals"] : List String).length + 1
          else (["vocals"] : List String).length))
    ∧ sourceNames true ["vocals"]
        = (if true = true ∨ (["vocals"] : List String).length = 1 then
            ["vocals"] ++ [if 1 < (["vocals"] : List String).length
              then "residual" else "accompaniment"]
          else ["vocals"])
    ∧ residualModel 1 1 (fun _ _ _ _ => 0) (fun _ _ _ => 0) 0 0 0 0
        = (fun _ _ _ _ => (0 : ℝ)) 0 0 0 0
    ∧ residualModel 1 1 (fun _ _ _ _ => 0) (fun _ _ _ => 0) 0 0 0 1
        = max 0 ((Complex.abs ((fun _ _ _ => (0 : ℂ)) 0 0 0)) ^ ((2 : ℝ) / 1)
            - ∑ j' ∈ Finset.range 1, (fun _ _ _ _ => (0 : ℝ)) 0 0 0 j') :=
  C2_residual_append true ["vocals"] 1 1 (fun _ _ _ _ => 0) (fun _ _ _ => 0)
    0 0 0 0 (by norm_num)

/-- Claim C3, counterexample: with the invalid configuration
`alpha = −1, niter = −1` (rejected by the spec's `ConfigurationError` rule)
`separate` does not fail at entry: it runs the whole pipeline and returns the
complete set of named estimates. -/
theorem C3_counterexample :
    ¬ specConfigValid nfftModel nhopModel (-1) (-1)
    ∧ (separate (fun _ _ => 0) (fun _ _ _ => 0) 1 (-1) true (-1) false).map Prod.fst
        = ["bass", "drums", "vocals", "other"] := by
  constructor
  · intro h
    have h1 := h.2.2.1
    norm_num at h1
  · rw [separate_names]
    rfl

/-- Claim C3 (amended): the pipeline performs no configuration validation at
entry — no `ShapeError`/`ConfigurationError` raise site exists in the code.
Even for configurations the spec deems invalid (non-positive `alpha`,
negative `niter`; `n_fft`/`n_hop` are fixed by the model and not
caller-supplied), `separate` performs the full computation and returns the
complete estimates mapping. -/
theorem C3_no_entry_validation (audio : ℤ → ℕ → ℝ) (msk : ℕ → ℕ → ℕ → ℝ)
    (T : ℕ) (niter : ℤ) (sm : Bool) (alpha : ℝ) (rm : Bool)
    (hinvalid : ¬ specConfigValid nfftModel nhopModel alpha niter) :
    (separate audio msk T niter sm alpha rm).map Prod.fst = sourceNames rm sources
    ∧ (separate audio msk T niter sm alpha rm).length
        = (sourceNames rm sources).length :=
  ⟨separate_names audio msk T niter sm alpha rm,
    separate_length audio msk T niter sm alpha rm⟩

/-- Claim C3 (amended), witness: a concrete invalid configuration on which the
full output is nevertheless produced. -/
theorem C3_no_entry_validation_witness :
    (separate (fun _ _ => 0) (fun _ _ _ => 0) 1 (-1) true (-1) true).map Prod.fst
        = sourceNames true sources
    ∧ (separate (fun _ _ => 0) (fun _ _ _ => 0) 1 (-1) true (-1) true).length
        = (sourceNames true sources).length :=
  C3_no_entry_validation (fun _ _ => 0) (fun _ _ _ => 0) 1 (-1) true (-1) true
    (by
      intro h
      have h1 := h.2.2.1
      norm_num at h1)

/-- Claim C4: with `softmask` off, `alpha` is dead — two runs of `separate`
on the same audio differing only in `alpha` return identical estimates (the
exponent is skipped, and the residual model receives the constant `1`). -/
theorem C4_alpha_irrelevant_without_softmask (audio : ℤ → ℕ → ℝ)
    (msk : ℕ → ℕ → ℕ → ℝ) (T : ℕ) (niter : ℤ) (rm : Bool) (a1 a2 : ℝ) :
    separate audio msk T niter false a1 rm
      = separate audio msk T niter false a2 rm := by
  have hV : ∀ a : ℝ, Vtensor false a msk (mixSpec audio)
      = Vtensor false 1 msk (mixSpec audio) := by
    intro a
    funext f b c j
    simp [Vtensor, Vsource]
  have hVf : separateVfinal audio msk false a1 rm
      = separateVfinal audio msk false a2 rm := by
    unfold separateVfinal
    rw [hV a1, hV a2]
    norm_num
  unfold separate separateY
  rw [hVf]

/-- Claim C6: the Python keyword defaults match the documented configuration
defaults: `separate` defaults to `niter=1, softmask=False, alpha=1.0,
residual_model=False`, and `istft` defaults to `rate=44100, n_fft=4096,
n_hopsize=1024`. -/
theorem C6_defaults :
    (∀ (audio : ℤ → ℕ → ℝ) (msk : ℕ → ℕ → ℕ → ℝ) (T : ℕ),
      separate audio msk T = separate audio msk T 1 false 1.0 false)
    ∧ (∀ (T : ℕ) (X : ℕ → ℕ → ℂ) (n : ℤ),
      istftFun T X n = istftFun T X n 44100 4096 1024)
    ∧ ({} : SeparateArgs).niter = 1
    ∧ ({} : SeparateArgs).softmask = false
    ∧ ({} : SeparateArgs).alpha = 1.0
    ∧ ({} : SeparateArgs).residual_model = false
    ∧ ({} : IstftArgs).rate = 44100
    ∧ ({} : IstftArgs).n_fft = 4096
    ∧ ({} : IstftArgs).n_hopsize = 1024 :=
  ⟨fun _ _ _ => rfl, fun _ _ _ => rfl, rfl, rfl, rfl, rfl, rfl, rfl, rfl⟩

/-- Claim C5: round-trip identity of the spectral transform — for every
waveform `x`, synthesising (`istft`, lines 28–36, including its `n_fft // 2`
rescaling) the unmodified analysis of `x` (the model's STFT) reproduces `x`
exactly at every output sample covered by the overlap-add window energy
(`0 < olaDen`, the window-normalisation condition of §4.1); machine floats
are idealised as reals, so "to floating-point precision" becomes exact
equality. -/
theorem C5_reconstruction (nfft nhop T : ℕ) (x : ℤ → ℝ) (n : ℤ)
    (h2 : 2 ≤ nfft) (hden : 0 < olaDen (hannWin nfft) nfft nhop T n) :
    istftFun T (modelSTFT nfft nhop x) n 44100 nfft nhop = x n := by
  have hN : nfft ≠ 0 := by omega
  have hhalf : ((nfft / 2 : ℕ) : ℂ) ≠ 0 := by
    have hpos : nfft / 2 ≠ 0 := by omega
    exact_mod_cast hpos
  unfold istftFun modelSTFT
  have hcancel : (fun t k => ((nfft / 2 : ℕ) : ℂ) *
      analyzeSTFT (hannWin nfft) nfft nhop x t k / ((nfft / 2 : ℕ) : ℂ))
      = analyzeSTFT (hannWin nfft) nfft nhop x := by
    funext t k
    rw [mul_div_cancel_left₀ _ hhalf]
  rw [hcancel]
  exact synthesizeOLA_analyzeSTFT (hannWin nfft) hN nhop T x n hden

/-- Claim C5, witness: a concrete instance (`n_fft = 2`, `n_hop = 1`, three
frames, constant signal) where the window-coverage hypothesis holds and the
round trip reproduces the sample. -/
theorem C5_reconstruction_witness :
    (2 : ℕ) ≤ 2 ∧ 0 < olaDen (hannWin 2) 2 1 3 0
    ∧ istftFun 3 (modelSTFT 2 1 (fun _ => 1)) 0 44100 2 1 = (fun _ : ℤ => (1 : ℝ)) 0 := by
  have h0 : hannWin 2 0 = 0 := by
    unfold hannWin
    norm_num
  have h1 : hannWin 2 1 = 1 := by
    unfold hannWin
    have hp : 2 * Real.pi * (1 : ℕ) / (2 : ℕ) = Real.pi := by
      push_cast
      ring
    rw [hp, Real.cos_pi]
    norm_num
  have hd : olaDen (hannWin 2) 2 1 3 0 = 1 := by
    unfold olaDen posIdx
    rw [Finset.sum_range_succ, Finset.sum_range_succ, Finset.sum_range_succ,
      Finset.sum_range_zero]
    rw [Finset.sum_range_succ, Finset.sum_range_succ, Finset.sum_range_zero]
    rw [Finset.sum_range_succ, Finset.sum_range_succ, Finset.sum_range_zero]
    rw [Finset.sum_range_succ, Finset.sum_range_succ, Finset.sum_range_zero]
    norm_num [h0, h1]
  refine ⟨le_refl 2, by rw [hd]; norm_num, ?_⟩
  exact C5_reconstruction 2 1 3 (fun _ => 1) 0 (le_refl 2) (by rw [hd]; norm_num)

/-- Claim C7: the estimates mapping preserves the source-name order (the keys
are exactly the name list, in order), the `j`-th entry maps the `j`-th name to
the reconstruction of slice `j` of `Y`, and that reconstruction depends only
on slice `j` — two `Y` tensors agreeing on slice `j` reconstruct identically. -/
theorem C7_order_and_slice_independence (audio : ℤ → ℕ → ℝ)
    (msk : ℕ → ℕ → ℕ → ℝ) (T : ℕ) (niter : ℤ) (sm : Bool) (alpha : ℝ)
    (rm : Bool) (j : ℕ) (Y1 Y2 : ℕ → ℕ → ℕ → ℕ → ℂ)
    (hagree : ∀ t k c, Y1 t k c j = Y2 t k c j) :
    (separate audio msk T niter sm alpha rm).map Prod.fst = sourceNames rm sources
    ∧ (separate audio msk T niter sm alpha rm)[j]?
        = ((sourceNames rm sources)[j]?).map
            (fun nm => (nm, reconWave T
              (separateY audio msk T niter sm alpha rm) j))
    ∧ reconWave T Y1 j = reconWave T Y2 j := by
  refine ⟨separate_names audio msk T niter sm alpha rm,
    separate_getElem audio msk T niter sm alpha rm j, ?_⟩
  funext n c
  unfold reconWave
  have hs : (fun t k => Y1 t k c j) = (fun t k => Y2 t k c j) :=
    funext fun t => funext fun k => hagree t k c
  rw [hs]

/-- Claim C7, witness: a concrete run with two equal slice tensors. -/
theorem C7_order_and_slice_independence_witness :
    (separate (fun _ _ => 0) (fun _ _ _ => 0) 0 0 false 1 false).map Prod.fst
        = sourceNames false sources
    ∧ (separate (fun _ _ => 0) (fun _ _ _ => 0) 0 0 false 1 false)[0]?
        = ((sourceNames false sources)[0]?).map
            (fun nm => (nm, reconWave 0
              (separateY (fun _ _ => 0) (fun _ _ _ => 0) 0 0 false 1 false) 0))
    ∧ reconWave 0 (fun _ _ _ _ => 0) 0 = reconWave 0 (fun _ _ _ _ => 0) 0 :=
  C7_order_and_slice_independence (fun _ _ => 0) (fun _ _ _ => 0) 0 0 false 1
    false 0 (fun _ _ _ _ => 0) (fun _ _ _ _ => 0) (fun _ _ _ => rfl)

/-- Claim C8: silence handling — for an all-zero mixture, every entry of the
estimate tensor `V` handed to the refinement engine is zero, every entry of
the refined tensor `Y` is zero, and every returned source waveform is zero at
every sample, whatever mask values the network produces (with a positive
softmask exponent `alpha`). -/
theorem C8_silence (msk : ℕ → ℕ → ℕ → ℝ) (T : ℕ) (niter : ℤ) (sm rm : Bool)
    (alpha : ℝ) (f b c j t k ch jj : ℕ) (n : ℤ) (m : ℕ)
    (p : String × (ℤ → ℕ → ℝ)) (ha : 0 < alpha)
    (hsome : (separate (fun _ _ => 0) msk T niter sm alpha rm)[jj]? = some p) :
    separateVfinal (fun _ _ => 0) msk sm alpha rm f b c j = 0
    ∧ separateY (fun _ _ => 0) msk T niter sm alpha rm t k ch j = 0
    ∧ p.2 n m = 0 := by
  refine ⟨separateVfinal_zero msk sm rm ha f b c j, ?_, ?_⟩
  · rw [separateY_zero msk T niter sm rm ha]
  · rw [separate_getElem (fun _ _ => 0) msk T niter sm alpha rm jj] at hsome
    cases hnm : (sourceNames rm sources)[jj]? with
    | none =>
        rw [hnm] at hsome
        simp at hsome
    | some nm =>
        rw [hnm, Option.map_some'] at hsome
        have hp := Option.some.inj hsome
        rw [← hp]
        dsimp only
        rw [separateY_zero msk T niter sm rm ha]
        exact reconWave_zero T jj n m

/-- Claim C8, witness: a concrete silent run with a nonzero mask, applied to
the head of the estimates list. -/
theorem C8_silence_witness :
    separateVfinal (fun _ _ => 0) (fun _ _ _ => 1) true 1 true 0 0 0 0 = 0
    ∧ separateY (fun _ _ => 0) (fun _ _ _ => 1) 1 1 true 1 true 0 0 0 0 = 0
    ∧ ("bass", reconWave 1
        (separateY (fun _ _ => 0) (fun _ _ _ => 1) 1 1 true 1 true) 0).2 0 0 = 0 :=
  C8_silence (fun _ _ _ => 1) 1 1 true true 1 0 0 0 0 0 0 0 0 0 0
    ("bass", reconWave 1
      (separateY (fun _ _ => 0) (fun _ _ _ => 1) 1 1 true 1 true) 0)
    (by norm_num)
    (by rw [separate_getElem (fun _ _ => 0) (fun _ _ _ => 1) 1 1 true 1 true 0]; rfl)

/-- Claim C9: when more than two channels arrive, the driver warns and keeps
only the first two channels — the warning flag is raised, the preprocessed
buffer depends only on the first two channels of the input (any two inputs
agreeing there preprocess identically), and `separate` receives a two-channel
buffer. -/
theorem C9_channel_slice (needR : Bool) (R : (ℕ → ℝ) → ℕ → ℝ) (rlen : ℕ → ℕ)
    (a a' : Audio2D) (hc : 2 < a.cols) (hrows : a.rows = a'.rows)
    (hcols : a.cols = a'.cols)
    (hagree : ∀ i j, j < 2 → a.data i j = a'.data i j) :
    (driverPreprocess needR R rlen a).1 = true
    ∧ (driverPreprocess needR R rlen a).2 = (driverPreprocess needR R rlen a').2
    ∧ (driverPreprocess needR R rlen a).2.cols = 2 := by
  have hc' : 2 < a'.cols := hcols ▸ hc
  have hslice : (channelCheck a).2 = (channelCheck a').2 := by
    unfold channelCheck
    rw [if_pos hc, if_pos hc']
    dsimp only
    have hdata : (fun i j => if j < 2 then a.data i j else 0)
        = (fun i j => if j < 2 then a'.data i j else 0) := by
      funext i j
      by_cases hj : j < 2
      · rw [if_pos hj, if_pos hj, hagree i j hj]
      · rw [if_neg hj, if_neg hj]
    rw [hrows, hdata]
  have h2 : (channelCheck a).2.cols = 2 := by
    unfold channelCheck
    rw [if_pos hc]
  refine ⟨?_, ?_, ?_⟩
  · unfold driverPreprocess channelCheck
    rw [if_pos hc]
  · unfold driverPreprocess
    rw [hslice]
  · unfold driverPreprocess
    have h3 : (resampleStep needR R rlen (channelCheck a).2).cols = 2 := by
      rw [resampleStep_cols, h2]
    rw [monoDuplicate_cols_ne_one (by rw [h3]; norm_num), h3]

/-- Claim C9, witness: a three-channel buffer. -/
theorem C9_channel_slice_witness :
    (driverPreprocess false (fun g => g) (fun r => r) ⟨1, 3, fun _ _ => 0⟩).1 = true
    ∧ (driverPreprocess false (fun g => g) (fun r => r) ⟨1, 3, fun _ _ => 0⟩).2
        = (driverPreprocess false (fun g => g) (fun r => r) ⟨1, 3, fun _ _ => 0⟩).2
    ∧ (driverPreprocess false (fun g => g) (fun r => r) ⟨1, 3, fun _ _ => 0⟩).2.cols = 2 :=
  C9_channel_slice false (fun g => g) (fun r => r) ⟨1, 3, fun _ _ => 0⟩
    ⟨1, 3, fun _ _ => 0⟩ (by norm_num) rfl rfl (fun _ _ _ => rfl)

/-- Claim C10: a mono buffer is duplicated — after the driver's
preprocessing, `separate` receives exactly two channels and, at every sample,
the two channels are identical copies. -/
theorem C10_mono_duplication (needR : Bool) (R : (ℕ → ℝ) → ℕ → ℝ)
    (rlen : ℕ → ℕ) (a : Audio2D) (i : ℕ) (hmono : a.cols = 1) :
    (driverPreprocess needR R rlen a).2.cols = 2
    ∧ (driverPreprocess needR R rlen a).2.data i 0
        = (driverPreprocess needR R rlen a).2.data i 1 := by
  have hnc : ¬ 2 < a.cols := by
    rw [hmono]
    norm_num
  have hcc : channelCheck a = (false, a) := by
    unfold channelCheck
    rw [if_neg hnc]
  unfold driverPreprocess
  rw [hcc]
  have hcols : (resampleStep needR R rlen a).cols = 1 := by
    rw [resampleStep_cols, hmono]
  unfold monoDuplicate
  rw [if_pos hcols]
  dsimp only
  constructor
  · rfl
  · rw [if_pos (by norm_num : (0 : ℕ) < 2), if_pos (by norm_num : (1 : ℕ) < 2)]

/-- Claim C10, witness: a one-channel buffer. -/
theorem C10_mono_duplication_witness :
    (driverPreprocess false (fun g => g) (fun r => r) ⟨4, 1, fun _ _ => 0⟩).2.cols = 2
    ∧ (driverPreprocess false (fun g => g) (fun r => r) ⟨4, 1, fun _ _ => 0⟩).2.data 0 0
        = (driverPreprocess false (fun g => g) (fun r => r) ⟨4, 1, fun _ _ => 0⟩).2.data 0 1 :=
  C10_mono_duplication false (fun g => g) (fun r => r) ⟨4, 1, fun _ _ => 0⟩ 0 rfl
